import Mathlib

/-!
Verification of the collaborative drum-machine server (src/server.js).

The server keeps one authoritative `DrumRoom` per room id.  A room's
pattern is a JavaScript `Map` from track id to an array of note objects
`\x7btick, velocity\x7d`; `tracks` is a `Map` from track id to track metadata;
`users` is a `Set` of connection ids.  We embed JavaScript `Map`s as
insertion-ordered association lists and `Set`s as duplicate-free lists,
and translate each mutation method of the class, the socket handlers
relevant to the claims, and the periodic cleanup sweep.
-/

/-- A JavaScript `Map` with string keys: an insertion-ordered association list
(a real `Map` never holds two entries with the same key). -/
abbrev JMap (α : Type) : Type := List (String × α)

/-- `Map.prototype.has`. -/
def mapHas {α : Type} : JMap α → String → Bool
  | [], _ => false
  | p :: rest, k => p.1 == k || mapHas rest k

/-- `Map.prototype.get` (returning `none` for a missing key). -/
def mapGet? {α : Type} : JMap α → String → Option α
  | [], _ => none
  | p :: rest, k => if p.1 == k then some p.2 else mapGet? rest k

/-- `Map.prototype.set`: update in place if the key exists, else append. -/
def mapSet {α : Type} : JMap α → String → α → JMap α
  | [], k, v => [(k, v)]
  | p :: rest, k, v => if p.1 == k then (k, v) :: rest else p :: mapSet rest k v

/-- `Map.prototype.delete`: drop the entry with that key. -/
def mapDelete {α : Type} (m : JMap α) (k : String) : JMap α :=
  m.filter (fun p => p.1 != k)

/-- The keys of a `Map`, in insertion order. -/
def mapKeys {α : Type} (m : JMap α) : List String :=
  m.map (fun p => p.1)

/-- `Array.from(m.values())`. -/
def mapValues {α : Type} (m : JMap α) : List α :=
  m.map (fun p => p.2)

/-- A note object `\x7btick, velocity\x7d` stored in a track's pattern array. -/
structure Note where
  tick : Int
  velocity : Int
deriving DecidableEq, Repr

/-- Track metadata (name, color, soundFile, availableSounds). -/
structure Track where
  id : String
  name : String
  color : String
  soundFile : String
  availableSounds : List String
deriving DecidableEq, Repr

/-- The mutable state of one `DrumRoom`. -/
structure Room where
  id : String
  bpm : Int
  measureCount : Int
  pattern : JMap (List Note)
  tracks : JMap Track
  users : List String
  lastActivity : Int
deriving DecidableEq, Repr

/-- The four default tracks installed by `initializeDefaultTracks`. -/
def defaultTracks : List Track :=
  [ { id := "kick", name := "Kick", color := "#e74c3c",
      soundFile := "kicks/Ac_K.wav", availableSounds := [] },
    { id := "snare", name := "Snare", color := "#f39c12",
      soundFile := "snares/Box_Snr2.wav", availableSounds := [] },
    { id := "hihat", name := "Hi-Hat", color := "#2ecc71",
      soundFile := "hihats/Jls_H.wav", availableSounds := [] },
    { id := "openhat", name := "Open Hat", color := "#3498db",
      soundFile := "cymbals/CL_OHH1.wav", availableSounds := [] } ]

/-- `initializeDefaultTracks`: register each default track with an empty pattern array. -/
def Room.initializeDefaultTracks (r : Room) : Room :=
  defaultTracks.foldl
    (fun r track =>
      { r with tracks := mapSet r.tracks track.id track,
               pattern := mapSet r.pattern track.id [] })
    r

/-- The `DrumRoom` constructor (`Date.now()` passed explicitly as `now`). -/
def Room.new (id : String) (now : Int) : Room :=
  Room.initializeDefaultTracks
    { id := id, bpm := 120, measureCount := 4, pattern := [],
      tracks := [], users := [], lastActivity := now }

/-- `addUser`: `Set.add` plus activity-stamp update. -/
def Room.addUser (r : Room) (userId : String) (now : Int) : Room :=
  { r with users := if r.users.contains userId then r.users else r.users ++ [userId],
           lastActivity := now }

/-- `removeUser` (grace-period variant): `Set.delete` plus activity-stamp update;
the room itself is never deleted here. -/
def Room.removeUser (r : Room) (userId : String) (now : Int) : Room :=
  { r with users := r.users.filter (fun u => u != userId),
           lastActivity := now }

/-- The notes currently stored for a track (`pattern.get(trackId)`, `[]` if absent). -/
def notesOf (r : Room) (trackId : String) : List Note :=
  (mapGet? r.pattern trackId).getD []

/-- `addNote(trackId, tick, velocity = 4)`: lazily create the track's array,
then push `\x7btick, velocity clamped to [1,4]\x7d` only when no note already
occupies that tick (`findIndex === -1`). -/
def Room.addNote (r : Room) (trackId : String) (tick velocity now : Int) : Room :=
  let pat := if mapHas r.pattern trackId then r.pattern else mapSet r.pattern trackId []
  let trackNotes := (mapGet? pat trackId).getD []
  match trackNotes.findIdx? (fun n => n.tick == tick) with
  | none =>
      { r with pattern := mapSet pat trackId
                 (trackNotes ++ [{ tick := tick, velocity := max 1 (min 4 velocity) }]),
               lastActivity := now }
  | some _ => { r with pattern := pat }

/-- `removeNote(trackId, tick)`: filter out the note at that tick. -/
def Room.removeNote (r : Room) (trackId : String) (tick now : Int) : Room :=
  if mapHas r.pattern trackId then
    let trackNotes := notesOf r trackId
    { r with pattern := mapSet r.pattern trackId
               (trackNotes.filter (fun n => n.tick != tick)),
             lastActivity := now }
  else r

/-- `updateNoteVelocity(trackId, tick, velocity)`: clamp into `[1,4]` in place;
no-op when no note sits at that tick. -/
def Room.updateNoteVelocity (r : Room) (trackId : String) (tick velocity now : Int) : Room :=
  if mapHas r.pattern trackId then
    let trackNotes := notesOf r trackId
    match trackNotes.findIdx? (fun n => n.tick == tick) with
    | some i =>
        let n := trackNotes.getD i { tick := 0, velocity := 0 }
        { r with pattern := mapSet r.pattern trackId
                   (trackNotes.set i { n with velocity := max 1 (min 4 velocity) }),
                 lastActivity := now }
    | none => r
  else r

/-- `moveNote(trackId, fromTick, toTick)`: splice out the first note found at
`fromTick` and push a copy of it carrying `toTick`. -/
def Room.moveNote (r : Room) (trackId : String) (fromTick toTick now : Int) : Room :=
  if mapHas r.pattern trackId then
    let trackNotes := notesOf r trackId
    match trackNotes.findIdx? (fun n => n.tick == fromTick) with
    | some i =>
        let noteToMove := trackNotes.getD i { tick := 0, velocity := 0 }
        { r with pattern := mapSet r.pattern trackId
                   (trackNotes.eraseIdx i ++ [{ noteToMove with tick := toTick }]),
                 lastActivity := now }
    | none => r
  else r

/-- `clearTrack(trackId)`. -/
def Room.clearTrack (r : Room) (trackId : String) (now : Int) : Room :=
  if mapHas r.pattern trackId then
    { r with pattern := mapSet r.pattern trackId [], lastActivity := now }
  else r

/-- `setBpm`: clamp between 60 and 300. -/
def Room.setBpm (r : Room) (newBpm now : Int) : Room :=
  { r with bpm := max 60 (min 300 newBpm), lastActivity := now }

/-- `setMeasureCount`: clamp between 1 and 16. -/
def Room.setMeasureCount (r : Room) (newMeasureCount now : Int) : Room :=
  { r with measureCount := max 1 (min 16 newMeasureCount), lastActivity := now }

/-- `addTrack(trackData)`: store the metadata and a fresh empty pattern array. -/
def Room.addTrack (r : Room) (trackData : Track) (now : Int) : Room :=
  { r with tracks := mapSet r.tracks trackData.id trackData,
           pattern := mapSet r.pattern trackData.id [],
           lastActivity := now }

/-- `removeTrack(trackId)`: drop both the metadata and the pattern entry. -/
def Room.removeTrack (r : Room) (trackId : String) (now : Int) : Room :=
  { r with tracks := mapDelete r.tracks trackId,
           pattern := mapDelete r.pattern trackId,
           lastActivity := now }

/-- `updateTrackSound(trackId, newSoundFile)`. -/
def Room.updateTrackSound (r : Room) (trackId newSoundFile : String) (now : Int) : Room :=
  if mapHas r.tracks trackId then
    match mapGet? r.tracks trackId with
    | some track =>
        { r with tracks := mapSet r.tracks trackId { track with soundFile := newSoundFile },
                 lastActivity := now }
    | none => r
  else r

/-- The serialized snapshot produced by `getState`. -/
structure RoomState where
  id : String
  bpm : Int
  measureCount : Int
  pattern : JMap (List Note)
  tracks : List Track
  users : List String
deriving DecidableEq, Repr

/-- `getState`: the pattern map is copied entry by entry into a plain object
(same keys, same note arrays, same order) and the tracks map is serialized by
values. -/
def Room.getState (r : Room) : RoomState :=
  { id := r.id, bpm := r.bpm, measureCount := r.measureCount,
    pattern := r.pattern,
    tracks := mapValues r.tracks,
    users := r.users }

/-- One `change` descriptor of a `pattern-change` request.  `addNote` carries an
optional velocity because `change.velocity` may be absent, in which case the
method's default parameter 4 applies. -/
inductive PatternChange where
  | addNote (trackId : String) (tick : Int) (velocity : Option Int)
  | removeNote (trackId : String) (tick : Int)
  | updateNoteVelocity (trackId : String) (tick velocity : Int)
  | moveNote (trackId : String) (fromTick toTick : Int)
  | clearTrack (trackId : String)
  | unknown (ty : String)
deriving DecidableEq, Repr

/-- The `pattern-change` socket handler.  It returns the updated room registry
together with the `pattern-update` broadcast (`none` when nothing is emitted):
requests from an unknown room or a non-member, and unknown change types, are
dropped. -/
def patternChangeHandler (rooms : JMap Room) (socketId roomId : String)
    (change : PatternChange) (now : Int) : JMap Room × Option PatternChange :=
  match mapGet? rooms roomId with
  | none => (rooms, none)
  | some room =>
    if room.users.contains socketId then
      match change with
      | .addNote trackId tick velocity =>
          (mapSet rooms roomId (room.addNote trackId tick (velocity.getD 4) now), some change)
      | .removeNote trackId tick =>
          (mapSet rooms roomId (room.removeNote trackId tick now), some change)
      | .updateNoteVelocity trackId tick velocity =>
          (mapSet rooms roomId (room.updateNoteVelocity trackId tick velocity now), some change)
      | .moveNote trackId fromTick toTick =>
          (mapSet rooms roomId (room.moveNote trackId fromTick toTick now), some change)
      | .clearTrack trackId =>
          (mapSet rooms roomId (room.clearTrack trackId now), some change)
      | .unknown _ => (rooms, none)
    else (rooms, none)

/-- The `bpm-change` broadcast payload. -/
structure BpmBroadcast where
  bpm : Int
  timestamp : Int
deriving DecidableEq, Repr

/-- The `set-bpm` socket handler: after the membership check it applies
`setBpm` and broadcasts the room's stored (clamped) `bpm`, not the request's. -/
def setBpmHandler (rooms : JMap Room) (socketId roomId : String)
    (bpm now : Int) : JMap Room × Option BpmBroadcast :=
  match mapGet? rooms roomId with
  | none => (rooms, none)
  | some room =>
    if room.users.contains socketId then
      let room' := room.setBpm bpm now
      (mapSet rooms roomId room', some { bpm := room'.bpm, timestamp := now })
    else (rooms, none)

/-- `EMPTY_ROOM_TIMEOUT = 1000 * 60 * 2`: the two-minute grace window. -/
def EMPTY_ROOM_TIMEOUT : Int := 1000 * 60 * 2

/-- One invocation of the periodic cleanup: delete exactly the rooms that are
member-empty and whose last activity is older than the grace window. -/
def cleanupSweep (rooms : JMap Room) (now : Int) : JMap Room :=
  rooms.filter (fun p => !(p.2.users.isEmpty && decide (now - p.2.lastActivity > EMPTY_ROOM_TIMEOUT)))

/-- A note-level edit on one track: the two operations claim C1 sequences. -/
inductive NoteOp where
  | add (tick velocity now : Int)
  | rem (tick now : Int)
deriving DecidableEq, Repr

/-- Apply one `NoteOp` to a room on a fixed track. -/
def Room.applyNoteOp (r : Room) (t : String) : NoteOp → Room
  | .add tick velocity now => r.addNote t tick velocity now
  | .rem tick now => r.removeNote t tick now

/-- Apply a sequence of `NoteOp`s in order. -/
def Room.applyNoteOps (r : Room) (t : String) (ops : List NoteOp) : Room :=
  ops.foldl (fun r op => r.applyNoteOp t op) r

/-- Fold the add/remove history for one tick on top of a starting occupancy. -/
def liveFrom (b : Bool) (ops : List NoteOp) (q : Int) : Bool :=
  ops.foldl
    (fun b op =>
      match op with
      | .add tick _ _ => if tick == q then true else b
      | .rem tick _ => if tick == q then false else b)
    b

/-- A tick is live after `ops` when some `add` put it there and no later
`rem` took it away (starting from an empty pattern). -/
def liveAfter (ops : List NoteOp) (q : Int) : Bool :=
  liveFrom false ops q

/-- No two notes of the list sit on the same tick. -/
def tickNodup (l : List Note) : Prop := (l.map Note.tick).Nodup

/-- Every key of `tracks` has a (possibly empty) entry in `pattern`. -/
def tracksSubPattern (r : Room) : Bool :=
  (mapKeys r.tracks).all (fun k => mapHas r.pattern k)

/-- Every stored track object's `id` equals its key in the `tracks` map. -/
def trackIdsMatchKeys (r : Room) : Bool :=
  r.tracks.all (fun p => p.2.id == p.1)

/-! ### Lemmas about the `JMap` embedding -/

theorem mapHas_eq_isSome {α : Type} (m : JMap α) (k : String) :
    mapHas m k = (mapGet? m k).isSome := by
  induction m with
  | nil => rfl
  | cons p rest ih =>
      by_cases hp : p.1 = k <;> simp [mapHas, mapGet?, hp, ih]

theorem mapGet?_mapSet {α : Type} (m : JMap α) (k k' : String) (v : α) :
    mapGet? (mapSet m k v) k' = if k == k' then some v else mapGet? m k' := by
  induction m with
  | nil => simp [mapSet, mapGet?]
  | cons p rest ih =>
      by_cases hp : p.1 = k
      · by_cases hk : k = k'
        · simp [mapSet, mapGet?, hp, hk]
        · have hpk : ¬ p.1 = k' := by rw [hp]; exact hk
          simp [mapSet, mapGet?, hp, hk, hpk]
      · by_cases hpk : p.1 = k'
        · have hk : ¬ k = k' := fun h => hp (by rw [h, hpk])
          have hk2 : ¬ k' = k := fun h => hk h.symm
          simp [mapSet, mapGet?, hp, hpk, hk, hk2]
        · simp [mapSet, mapGet?, hp, hpk, ih]

theorem mapGet?_mapDelete {α : Type} (m : JMap α) (k k' : String) :
    mapGet? (mapDelete m k) k' = if k == k' then none else mapGet? m k' := by
  induction m with
  | nil => simp [mapDelete, mapGet?]
  | cons p rest ih =>
      by_cases hp : p.1 = k
      · by_cases hk : k = k'
        · simpa [mapDelete, mapGet?, hp, hk] using ih
        · have hpk : ¬ p.1 = k' := by rw [hp]; exact hk
          simpa [mapDelete, mapGet?, hp, hk, hpk] using ih
      · by_cases hpk : p.1 = k'
        · have hk : ¬ k = k' := fun h => hp (by rw [h, hpk])
          have hk2 : ¬ k' = k := fun h => hk h.symm
          simp [mapDelete, mapGet?, hp, hpk, hk, hk2]
        · simpa [mapDelete, mapGet?, hp, hpk] using ih

theorem mapHas_mapSet {α : Type} (m : JMap α) (k k' : String) (v : α) :
    mapHas (mapSet m k v) k' = ((k == k') || mapHas m k') := by
  rw [mapHas_eq_isSome, mapHas_eq_isSome, mapGet?_mapSet]
  by_cases hk : k = k' <;> simp [hk]

theorem mapHas_mapDelete {α : Type} (m : JMap α) (k k' : String) :
    mapHas (mapDelete m k) k' = (!(k == k') && mapHas m k') := by
  rw [mapHas_eq_isSome, mapHas_eq_isSome, mapGet?_mapDelete]
  by_cases hk : k = k' <;> simp [hk]

theorem mapGet?_eq_none_of_not_has {α : Type} (m : JMap α) (k : String)
    (h : mapHas m k = false) : mapGet? m k = none := by
  rw [mapHas_eq_isSome] at h
  exact Option.not_isSome_iff_eq_none.mp (by simp [h])

theorem mapHas_eq_false_iff {α : Type} (m : JMap α) (k : String) :
    mapHas m k = false ↔ k ∉ mapKeys m := by
  induction m with
  | nil => simp [mapHas, mapKeys]
  | cons q rest ih =>
      simp only [mapHas, Bool.or_eq_false_iff, beq_eq_false_iff_ne, ne_eq, ih, mapKeys,
        List.map_cons, List.mem_cons, not_or]
      exact ⟨fun h => ⟨fun he => h.1 he.symm, h.2⟩, fun h => ⟨fun he => h.1 he.symm, h.2⟩⟩

theorem mapHas_filter_eq_false {α : Type} (f : String × α → Bool) (m : JMap α) (k : String)
    (h : mapHas m k = false) : mapHas (m.filter f) k = false := by
  induction m with
  | nil => simp [mapHas]
  | cons q rest ih =>
      simp [mapHas] at h
      by_cases hq : f q = true <;>
        simp [List.filter_cons, hq, mapHas, h.1, ih h.2]

theorem mapGet?_filter_of_pos {α : Type} (f : String × α → Bool) (m : JMap α) (k : String)
    (v : α) (h : mapGet? m k = some v) (hf : f (k, v) = true) :
    mapGet? (m.filter f) k = some v := by
  induction m with
  | nil => simp [mapGet?] at h
  | cons q rest ih =>
      obtain ⟨a, b⟩ := q
      by_cases ha : a = k
      · subst ha
        simp [mapGet?] at h
        subst h
        simp [List.filter_cons, hf, mapGet?]
      · simp [mapGet?, ha] at h
        by_cases hq : f (a, b) = true <;>
          simp [List.filter_cons, hq, mapGet?, ha, ih h]

theorem mapGet?_filter_of_neg {α : Type} (f : String × α → Bool) (m : JMap α) (k : String)
    (v : α) (hnd : (mapKeys m).Nodup) (h : mapGet? m k = some v) (hf : f (k, v) = false) :
    mapGet? (m.filter f) k = none := by
  induction m with
  | nil => simp [mapGet?] at h
  | cons q rest ih =>
      obtain ⟨a, b⟩ := q
      simp [mapKeys] at hnd
      by_cases ha : a = k
      · subst ha
        simp [mapGet?] at h
        subst h
        simp [List.filter_cons, hf]
        apply mapGet?_eq_none_of_not_has
        apply mapHas_filter_eq_false
        rw [mapHas_eq_false_iff]
        simpa [mapKeys] using hnd.1
      · simp [mapGet?, ha] at h
        by_cases hq : f (a, b) = true <;>
          simp [List.filter_cons, hq, mapGet?, ha, ih hnd.2 h]

/-! ### Behaviour of the note operations on the edited track -/

theorem notesOf_eq_nil_of_not_has (r : Room) (t : String)
    (h : mapHas r.pattern t = false) : notesOf r t = [] := by
  simp [notesOf, mapGet?_eq_none_of_not_has _ _ h]

theorem mapHas_of_any (r : Room) (t : String) (f : Note → Bool)
    (h : (notesOf r t).any f = true) : mapHas r.pattern t = true := by
  by_contra hh
  rw [notesOf_eq_nil_of_not_has r t (by simpa using hh)] at h
  simp at h

theorem findIdx?_eq_none_iff_any {α : Type} (p : α → Bool) (l : List α) :
    l.findIdx? p = none ↔ l.any p = false := by
  constructor
  · intro h
    have hs := @List.findIdx?_isSome _ l p
    rw [h] at hs
    simpa using hs.symm
  · intro h
    rcases hfi : l.findIdx? p with _ | i
    · rfl
    · have hs := @List.findIdx?_isSome _ l p
      rw [hfi, h] at hs
      simp at hs

theorem notesOf_addNote (r : Room) (t : String) (tick velocity now : Int) :
    notesOf (r.addNote t tick velocity now) t =
      if (notesOf r t).any (fun n => n.tick == tick) = true then notesOf r t
      else notesOf r t ++ [{ tick := tick, velocity := max 1 (min 4 velocity) }] := by
  by_cases hh : mapHas r.pattern t = true
  · simp only [Room.addNote]
    rw [if_pos hh]
    rcases hfi : List.findIdx? (fun n => n.tick == tick) ((mapGet? r.pattern t).getD []) with _ | i
    · have hany : (notesOf r t).any (fun n => n.tick == tick) = false :=
        (findIdx?_eq_none_iff_any _ _).mp hfi
      rw [if_neg (by rw [hany]; exact Bool.false_ne_true)]
      simp only [hfi, notesOf, mapGet?_mapSet]
      simp
    · have hs := @List.findIdx?_isSome _ ((mapGet? r.pattern t).getD []) (fun n => n.tick == tick)
      rw [hfi] at hs
      have hany : (notesOf r t).any (fun n => n.tick == tick) = true := hs.symm
      rw [if_pos hany]
      simp only [hfi]
  · simp only [Room.addNote]
    rw [if_neg hh]
    have h0 : notesOf r t = [] := notesOf_eq_nil_of_not_has r t (by simpa using hh)
    have hget : (mapGet? (mapSet r.pattern t ([] : List Note)) t).getD [] = ([] : List Note) := by
      rw [mapGet?_mapSet]
      simp
    rw [hget]
    rw [if_neg (by rw [h0]; simp)]
    simp only [List.findIdx?_nil, notesOf, mapGet?_mapSet, h0]
    simp
    exact h0

theorem notesOf_removeNote (r : Room) (t : String) (tick now : Int) :
    notesOf (r.removeNote t tick now) t = (notesOf r t).filter (fun n => n.tick != tick) := by
  by_cases hh : mapHas r.pattern t = true
  · simp only [Room.removeNote]
    rw [if_pos hh]
    simp only [notesOf, mapGet?_mapSet]
    simp
  · have h0 : notesOf r t = [] := notesOf_eq_nil_of_not_has r t (by simpa using hh)
    simp only [Room.removeNote]
    rw [if_neg hh, h0]
    simp [h0]

theorem addNote_occupied (r : Room) (t : String) (tick velocity now : Int)
    (h : (notesOf r t).any (fun n => n.tick == tick) = true) :
    r.addNote t tick velocity now = r := by
  have hh : mapHas r.pattern t = true := mapHas_of_any r t _ h
  simp only [Room.addNote]
  rw [if_pos hh]
  rcases hfi : List.findIdx? (fun n => n.tick == tick) ((mapGet? r.pattern t).getD []) with _ | i
  · exfalso
    have hc : (notesOf r t).any (fun n => n.tick == tick) = false :=
      (findIdx?_eq_none_iff_any _ _).mp hfi
    rw [hc] at h
    exact Bool.false_ne_true h
  · rw [hfi]

theorem any_notesOf_addNote (r : Room) (t : String) (tick velocity now q : Int) :
    (notesOf (r.addNote t tick velocity now) t).any (fun n => n.tick == q)
      = ((tick == q) || (notesOf r t).any (fun n => n.tick == q)) := by
  rw [notesOf_addNote]
  by_cases ha : (notesOf r t).any (fun n => n.tick == tick) = true
  · rw [if_pos ha]
    by_cases htq : tick = q
    · subst htq
      simp [ha]
    · simp [htq]
  · rw [if_neg ha]
    rw [List.any_append]
    by_cases htq : tick = q <;> simp [htq, Bool.or_comm]

theorem any_notesOf_removeNote (r : Room) (t : String) (tick now q : Int) :
    (notesOf (r.removeNote t tick now) t).any (fun n => n.tick == q)
      = (!(tick == q) && (notesOf r t).any (fun n => n.tick == q)) := by
  rw [notesOf_removeNote, List.any_filter]
  by_cases htq : tick = q
  · subst htq
    simp
  · have hne : ∀ n : Note, ((n.tick != tick) && (n.tick == q)) = (n.tick == q) := by
      intro n
      by_cases hn : n.tick = q
      · have hnt : ¬ n.tick = tick := by rw [hn]; exact fun hc => htq hc.symm
        have hqt : ¬ q = tick := fun hc => htq hc.symm
        simp [hn, hnt, hqt]
      · simp [hn]
    simp only [hne]
    have hf : (tick == q) = false := by simp [htq]
    rw [hf]
    simp

theorem tickNodup_addNote (r : Room) (t : String) (tick velocity now : Int)
    (h : tickNodup (notesOf r t)) :
    tickNodup (notesOf (r.addNote t tick velocity now) t) := by
  rw [tickNodup, notesOf_addNote]
  by_cases ha : (notesOf r t).any (fun n => n.tick == tick) = true
  · rw [if_pos ha]; exact h
  · rw [if_neg ha]
    rw [List.map_append, List.nodup_append]
    refine ⟨h, by simp, ?_⟩
    intro a haMem haMem2
    simp at haMem2
    subst haMem2
    apply ha
    rw [List.any_eq_true]
    simp only [List.mem_map] at haMem
    obtain ⟨n, hn, hnt⟩ := haMem
    exact ⟨n, hn, by simp [hnt]⟩

theorem tickNodup_removeNote (r : Room) (t : String) (tick now : Int)
    (h : tickNodup (notesOf r t)) :
    tickNodup (notesOf (r.removeNote t tick now) t) := by
  rw [tickNodup, notesOf_removeNote]
  exact ((List.filter_sublist _).map _).nodup h

theorem countP_tick_of_nodup (l : List Note) (h : tickNodup l) (q : Int) :
    l.countP (fun n => n.tick == q) = if l.any (fun n => n.tick == q) = true then 1 else 0 := by
  induction l with
  | nil => simp
  | cons n l ih =>
      rw [tickNodup, List.map_cons, List.nodup_cons] at h
      obtain ⟨hn, hl⟩ := h
      rw [List.countP_cons, List.any_cons]
      by_cases hq : n.tick = q
      · subst hq
        have hz : l.countP (fun m => m.tick == n.tick) = 0 := by
          rw [List.countP_eq_zero]
          intro m hm
          simp only [beq_iff_eq]
          intro hmq
          exact hn (by rw [← hmq]; exact List.mem_map_of_mem _ hm)
        rw [hz]
        simp
      · have hf : (n.tick == q) = false := by simp [hq]
        rw [hf, ih hl]
        simp

theorem liveFrom_cons (b : Bool) (op : NoteOp) (ops : List NoteOp) (q : Int) :
    liveFrom b (op :: ops) q
      = liveFrom
          (match op with
            | .add tick _ _ => if tick == q then true else b
            | .rem tick _ => if tick == q then false else b)
          ops q := rfl

theorem applyNoteOps_spec (t : String) (ops : List NoteOp) :
    ∀ r : Room, tickNodup (notesOf r t) →
      tickNodup (notesOf (r.applyNoteOps t ops) t)
      ∧ ∀ q : Int, (notesOf (r.applyNoteOps t ops) t).any (fun n => n.tick == q)
          = liveFrom ((notesOf r t).any (fun n => n.tick == q)) ops q := by
  induction ops with
  | nil => exact fun r h => ⟨h, fun q => rfl⟩
  | cons op ops ih =>
      intro r h
      have hstep : tickNodup (notesOf (r.applyNoteOp t op) t) := by
        cases op with
        | add tick velocity now => exact tickNodup_addNote r t tick velocity now h
        | rem tick now => exact tickNodup_removeNote r t tick now h
      have hrec := ih (r.applyNoteOp t op) hstep
      refine ⟨hrec.1, ?_⟩
      intro q
      have hq := hrec.2 q
      rw [liveFrom_cons]
      cases op with
      | add tick velocity now =>
          rw [show r.applyNoteOps t (NoteOp.add tick velocity now :: ops)
              = (r.applyNoteOp t (NoteOp.add tick velocity now)).applyNoteOps t ops from rfl]
          rw [hq]
          congr 1
          rw [show r.applyNoteOp t (NoteOp.add tick velocity now)
              = r.addNote t tick velocity now from rfl]
          rw [any_notesOf_addNote]
          by_cases htq : tick = q <;> simp [htq]
      | rem tick now =>
          rw [show r.applyNoteOps t (NoteOp.rem tick now :: ops)
              = (r.applyNoteOp t (NoteOp.rem tick now)).applyNoteOps t ops from rfl]
          rw [hq]
          congr 1
          rw [show r.applyNoteOp t (NoteOp.rem tick now)
              = r.removeNote t tick now from rfl]
          rw [any_notesOf_removeNote]
          by_cases htq : tick = q <;> simp [htq]

/-- C1: starting from an empty pattern, any sequence of `addNote`/`removeNote`
operations on one track leaves exactly one note per tick that was added and
not subsequently removed (and none elsewhere), and `addNote` at an occupied
tick is a complete no-op, so it never changes the existing note's velocity. -/
theorem addNote_removeNote_exactly_one_per_live_tick (t : String) (r0 : Room)
    (h0 : notesOf r0 t = []) (ops : List NoteOp) (q : Int) :
    (notesOf (r0.applyNoteOps t ops) t).countP (fun n => n.tick == q)
        = (if liveAfter ops q = true then 1 else 0)
    ∧ ∀ (r : Room) (tick velocity now : Int),
        (notesOf r t).any (fun n => n.tick == tick) = true →
        r.addNote t tick velocity now = r := by
  have hnod : tickNodup (notesOf r0 t) := by simp [tickNodup, h0]
  have hspec := applyNoteOps_spec t ops r0 hnod
  constructor
  · rw [countP_tick_of_nodup _ hspec.1 q]
    have hq := hspec.2 q
    rw [h0] at hq
    simp only [List.any_nil] at hq
    rw [hq]
    rfl
  · intro r tick velocity now h
    exact addNote_occupied r t tick velocity now h

/-- Witness for C1 at a concrete room and op sequence. -/
theorem addNote_removeNote_exactly_one_per_live_tick_witness :
    notesOf (Room.new "w" 0) "kick" = []
    ∧ (notesOf ((Room.new "w" 0).applyNoteOps "kick"
          [NoteOp.add 0 4 1, NoteOp.rem 0 2, NoteOp.add 3 9 3]) "kick").countP
        (fun n => n.tick == 3)
        = (if liveAfter [NoteOp.add 0 4 1, NoteOp.rem 0 2, NoteOp.add 3 9 3] 3 = true
           then 1 else 0)
    ∧ ((Room.new "w" 0).addNote "kick" 5 2 7).addNote "kick" 5 3 9
        = (Room.new "w" 0).addNote "kick" 5 2 7 := by
  refine ⟨by rfl, ?_, ?_⟩
  · exact (addNote_removeNote_exactly_one_per_live_tick "kick" (Room.new "w" 0) (by rfl)
      [NoteOp.add 0 4 1, NoteOp.rem 0 2, NoteOp.add 3 9 3] 3).1
  · exact (addNote_removeNote_exactly_one_per_live_tick "kick" (Room.new "w" 0) (by rfl)
      [] 0).2 ((Room.new "w" 0).addNote "kick" 5 2 7) 5 3 9 (by rfl)

/-- C2: `setBpm` always stores a tempo in [60, 300] (10 clamps to 60, 500 to
300) and `setMeasureCount` always stores a value in [1, 16] (0 clamps to 1,
99 to 16). -/
theorem setBpm_setMeasureCount_clamped (r : Room) (v now : Int) :
    (60 ≤ (r.setBpm v now).bpm ∧ (r.setBpm v now).bpm ≤ 300)
    ∧ (r.setBpm 10 now).bpm = 60
    ∧ (r.setBpm 500 now).bpm = 300
    ∧ (1 ≤ (r.setMeasureCount v now).measureCount
        ∧ (r.setMeasureCount v now).measureCount ≤ 16)
    ∧ (r.setMeasureCount 0 now).measureCount = 1
    ∧ (r.setMeasureCount 99 now).measureCount = 16 := by
  refine ⟨⟨le_max_left _ _, max_le (by norm_num) (min_le_left _ _)⟩,
    by simp only [Room.setBpm]; decide,
    by simp only [Room.setBpm]; decide,
    ⟨le_max_left _ _, max_le (by norm_num) (min_le_left _ _)⟩,
    by simp only [Room.setMeasureCount]; decide,
    by simp only [Room.setMeasureCount]; decide⟩

/-- C6: removing a track and re-adding a track descriptor with the same id
leaves that id with a fresh, empty pattern collection. -/
theorem removeTrack_addTrack_fresh_pattern (r : Room) (trackData : Track) (now now' : Int) :
    mapGet? ((r.removeTrack trackData.id now).addTrack trackData now').pattern trackData.id
      = some [] := by
  simp [Room.addTrack, Room.removeTrack, mapGet?_mapSet]

/-- C9: `moveNote` does not enforce one note per destination tick: in a
reachable room holding notes at ticks 0 and 1 of the kick track, moving the
note at 0 onto 1 leaves two notes whose tick is 1. -/
theorem moveNote_duplicates_destination_tick :
    ((notesOf (((Room.new "r" 0).addNote "kick" 0 4 1).addNote "kick" 1 2 2) "kick").any
        (fun n => n.tick == 0) = true
      ∧ (notesOf (((Room.new "r" 0).addNote "kick" 0 4 1).addNote "kick" 1 2 2) "kick").any
        (fun n => n.tick == 1) = true)
    ∧ (notesOf ((((Room.new "r" 0).addNote "kick" 0 4 1).addNote "kick" 1 2 2).moveNote
          "kick" 0 1 3) "kick").countP (fun n => n.tick == 1) = 2 := by
  exact ⟨⟨by rfl, by rfl⟩, by rfl⟩

/-- C3: a `pattern-change` request naming an unknown room, or sent by a
connection that is not a member of that room, mutates nothing and emits no
broadcast. -/
theorem patternChange_nonMember_dropped (rooms : JMap Room)
    (socketId roomId : String) (change : PatternChange) (now : Int)
    (h : ∀ room : Room, mapGet? rooms roomId = some room →
      room.users.contains socketId = false) :
    patternChangeHandler rooms socketId roomId change now = (rooms, none) := by
  rcases hg : mapGet? rooms roomId with _ | room
  · simp [patternChangeHandler, hg]
  · have hc := h room hg
    simp only [patternChangeHandler, hg, hc, Bool.false_eq_true, if_false]

/-- Witness for C3: a fresh room whose only member is its creator drops a
pattern change from a different connection. -/
theorem patternChange_nonMember_dropped_witness :
    patternChangeHandler [("abc", (Room.new "abc" 0).addUser "bob" 1)] "alice" "abc"
        (PatternChange.addNote "kick" 0 (some 4)) 5
      = ([("abc", (Room.new "abc" 0).addUser "bob" 1)], none) := by
  exact patternChange_nonMember_dropped _ _ _ _ _
    (fun room hr => by
      injection hr with h2
      rw [← h2]
      rfl)

/-- C7: for an authorized `set-bpm` request the broadcast carries exactly the
clamped tempo stored in the room after the change (with a timestamp), and that
value lies in [60, 300]. -/
theorem setBpm_broadcast_carries_stored_value (rooms : JMap Room)
    (socketId roomId : String) (bpm now : Int) (room : Room)
    (hg : mapGet? rooms roomId = some room)
    (hm : room.users.contains socketId = true) :
    mapGet? (setBpmHandler rooms socketId roomId bpm now).1 roomId
        = some (room.setBpm bpm now)
    ∧ (setBpmHandler rooms socketId roomId bpm now).2
        = some { bpm := (room.setBpm bpm now).bpm, timestamp := now }
    ∧ (room.setBpm bpm now).bpm = max 60 (min 300 bpm)
    ∧ 60 ≤ (room.setBpm bpm now).bpm ∧ (room.setBpm bpm now).bpm ≤ 300 := by
  have hh : setBpmHandler rooms socketId roomId bpm now
      = (mapSet rooms roomId (room.setBpm bpm now),
         some { bpm := (room.setBpm bpm now).bpm, timestamp := now }) := by
    simp only [setBpmHandler, hg, hm, if_true]
  rw [hh]
  refine ⟨?_, rfl, rfl, le_max_left _ _, max_le (by norm_num) (min_le_left _ _)⟩
  rw [mapGet?_mapSet]
  simp

/-- Witness for C7 at a concrete room, member and out-of-range tempo. -/
theorem setBpm_broadcast_carries_stored_value_witness :
    mapGet? (setBpmHandler [("abc", (Room.new "abc" 0).addUser "alice" 1)]
        "alice" "abc" 999 5).1 "abc"
      = some (((Room.new "abc" 0).addUser "alice" 1).setBpm 999 5)
    ∧ (setBpmHandler [("abc", (Room.new "abc" 0).addUser "alice" 1)]
        "alice" "abc" 999 5).2
      = some { bpm := (((Room.new "abc" 0).addUser "alice" 1).setBpm 999 5).bpm,
               timestamp := 5 }
    ∧ (((Room.new "abc" 0).addUser "alice" 1).setBpm 999 5).bpm = max 60 (min 300 999)
    ∧ 60 ≤ (((Room.new "abc" 0).addUser "alice" 1).setBpm 999 5).bpm
    ∧ (((Room.new "abc" 0).addUser "alice" 1).setBpm 999 5).bpm ≤ 300 := by
  exact setBpm_broadcast_carries_stored_value _ _ _ _ _ _ rfl rfl

/-- C4: the sweep never deletes a room that has been member-empty for less
than the grace window, deletes it on the next sweep once it has been empty
with no activity for longer than the window, and never deletes a room whose
member set is non-empty. -/
theorem cleanupSweep_grace_window (rooms : JMap Room) (rid : String) (now : Int)
    (hnd : (mapKeys rooms).Nodup) :
    (∀ (r0 : Room) (uid : String) (te : Int),
        mapGet? rooms rid = some (r0.removeUser uid te) →
        (r0.removeUser uid te).users = [] →
        ((now - te < EMPTY_ROOM_TIMEOUT →
            mapGet? (cleanupSweep rooms now) rid = some (r0.removeUser uid te))
          ∧ (now - te > EMPTY_ROOM_TIMEOUT →
            mapGet? (cleanupSweep rooms now) rid = none)))
    ∧ (∀ r : Room, mapGet? rooms rid = some r → r.users ≠ [] →
        mapGet? (cleanupSweep rooms now) rid = some r) := by
  constructor
  · intro r0 uid te hg hu
    have hla : (r0.removeUser uid te).lastActivity = te := rfl
    constructor
    · intro hlt
      apply mapGet?_filter_of_pos _ _ _ _ hg
      simp only [hu, hla, List.isEmpty_nil, Bool.true_and, Bool.not_eq_true']
      exact decide_eq_false (by omega)
    · intro hgt
      apply mapGet?_filter_of_neg _ _ _ _ hnd hg
      simp only [hu, hla, List.isEmpty_nil, Bool.true_and]
      rw [decide_eq_true hgt]
      rfl
  · intro r hg hu
    apply mapGet?_filter_of_pos _ _ _ _ hg
    have he : r.users.isEmpty = false := List.isEmpty_eq_false.mpr hu
    simp [he]

/-- Witness for C4: a room emptied at time 0 survives a sweep at 1000 ms and
is deleted by a sweep two minutes and one second later, while an occupied
room survives any sweep. -/
theorem cleanupSweep_grace_window_witness :
    mapGet? (cleanupSweep [("abc", ((Room.new "abc" 0).addUser "u" 0).removeUser "u" 0)] 1000)
        "abc" = some (((Room.new "abc" 0).addUser "u" 0).removeUser "u" 0)
    ∧ mapGet? (cleanupSweep [("abc", ((Room.new "abc" 0).addUser "u" 0).removeUser "u" 0)] 121000)
        "abc" = none
    ∧ mapGet? (cleanupSweep [("occ", (Room.new "occ" 0).addUser "u" 0)] 999999999) "occ"
        = some ((Room.new "occ" 0).addUser "u" 0) := by
  refine ⟨?_, ?_, ?_⟩
  · exact ((cleanupSweep_grace_window
        [("abc", ((Room.new "abc" 0).addUser "u" 0).removeUser "u" 0)] "abc" 1000
        (by decide)).1 ((Room.new "abc" 0).addUser "u" 0) "u" 0 rfl rfl).1 (by decide)
  · exact ((cleanupSweep_grace_window
        [("abc", ((Room.new "abc" 0).addUser "u" 0).removeUser "u" 0)] "abc" 121000
        (by decide)).1 ((Room.new "abc" 0).addUser "u" 0) "u" 0 rfl rfl).2 (by decide)
  · exact (cleanupSweep_grace_window [("occ", (Room.new "occ" 0).addUser "u" 0)] "occ"
        999999999 (by decide)).2 ((Room.new "occ" 0).addUser "u" 0) rfl (by decide)

theorem notesOf_moveNote_found (r : Room) (t : String) (a b now : Int) (i : Nat)
    (hm : mapHas r.pattern t = true)
    (hfi : (notesOf r t).findIdx? (fun n => n.tick == a) = some i) :
    notesOf (r.moveNote t a b now) t
      = (notesOf r t).eraseIdx i
        ++ [{ (notesOf r t).getD i { tick := 0, velocity := 0 } with tick := b }] := by
  simp only [Room.moveNote]
  rw [if_pos hm]
  simp only [hfi]
  simp only [notesOf, mapGet?_mapSet]
  simp

/-- C5 counterexample: with notes at ticks 0 (velocity 4) and 1 (velocity 2)
on the kick track, `moveNote(kick, 0, 1)` then `moveNote(kick, 1, 0)` does
not restore the original note: before the moves a velocity-4 note sits at
tick 0, afterwards no note at tick 0 has velocity 4 (the pre-existing
occupant of tick 1 was moved back instead). -/
theorem moveNote_roundtrip_counterexample :
    (notesOf (((Room.new "c" 0).addNote "kick" 0 4 1).addNote "kick" 1 2 2) "kick").any
        (fun n => n.tick == 0 && n.velocity == 4) = true
    ∧ (notesOf (((((Room.new "c" 0).addNote "kick" 0 4 1).addNote "kick" 1 2 2).moveNote
          "kick" 0 1 3).moveNote "kick" 1 0 4) "kick").any
        (fun n => n.tick == 0 && n.velocity == 4) = false := by
  exact ⟨rfl, rfl⟩

/-- C5 (amended): when the destination tick `b` is unoccupied, the round trip
`moveNote(t, a, b)` then `moveNote(t, b, a)` restores the track's notes up to
permutation, and in particular the original note (tick `a`, original
velocity) is present again. -/
theorem moveNote_roundtrip_restores (r : Room) (t : String) (a b now now' : Int) (i : Nat)
    (hi : (notesOf r t).findIdx? (fun n => n.tick == a) = some i)
    (hb : (notesOf r t).any (fun n => n.tick == b) = false) :
    ((notesOf ((r.moveNote t a b now).moveNote t b a now') t).Perm (notesOf r t))
    ∧ ((notesOf r t).getD i { tick := 0, velocity := 0 }).tick = a
    ∧ (notesOf r t).getD i { tick := 0, velocity := 0 }
        ∈ notesOf ((r.moveNote t a b now).moveNote t b a now') t := by
  have hm : mapHas r.pattern t = true := by
    by_contra hc
    rw [notesOf_eq_nil_of_not_has r t (by simpa using hc)] at hi
    simp at hi
  have hif := List.findIdx?_eq_some_iff_findIdx_eq.mp hi
  have hilen : i < (notesOf r t).length := hif.1
  have hgetD : (notesOf r t).getD i { tick := 0, velocity := 0 } = (notesOf r t)[i] := by
    rw [List.getD_eq_getElem?_getD, List.getElem?_eq_getElem hilen]
    rfl
  have htick : (notesOf r t)[i].tick = a := by
    have hw : (notesOf r t).findIdx (fun n => n.tick == a) < (notesOf r t).length := by
      rw [hif.2]; exact hilen
    have hp := @List.findIdx_getElem _ (fun n => n.tick == a) (notesOf r t) hw
    simp only [hif.2] at hp
    simpa using hp
  have h1 : notesOf (r.moveNote t a b now) t
      = (notesOf r t).eraseIdx i ++ [{ (notesOf r t)[i] with tick := b }] := by
    rw [notesOf_moveNote_found r t a b now i hm hi, hgetD]
  have hm2 : mapHas (r.moveNote t a b now).pattern t = true := by
    apply mapHas_of_any _ _ (fun n => n.tick == b)
    rw [h1, List.any_append]
    simp
  have herase_b : ((notesOf r t).eraseIdx i).any (fun n => n.tick == b) = false := by
    rcases hx : ((notesOf r t).eraseIdx i).any (fun n => n.tick == b) with _ | _
    · rfl
    · exfalso
      rw [List.any_eq_true] at hx
      obtain ⟨x, hxm, hxp⟩ := hx
      have hxl : x ∈ notesOf r t := (List.eraseIdx_sublist _ i).subset hxm
      have hcontra : (notesOf r t).any (fun n => n.tick == b) = true :=
        List.any_eq_true.mpr ⟨x, hxl, hxp⟩
      rw [hb] at hcontra
      exact Bool.false_ne_true hcontra
  have hfi2 : (notesOf (r.moveNote t a b now) t).findIdx? (fun n => n.tick == b)
      = some ((notesOf r t).eraseIdx i).length := by
    rw [h1, List.findIdx?_append, (findIdx?_eq_none_iff_any _ _).mpr herase_b]
    simp [List.findIdx?_cons]
  have h2 := notesOf_moveNote_found (r.moveNote t a b now) t b a now'
    ((notesOf r t).eraseIdx i).length hm2 hfi2
  have hgd2 : (notesOf (r.moveNote t a b now) t).getD ((notesOf r t).eraseIdx i).length
        { tick := 0, velocity := 0 }
      = { (notesOf r t)[i] with tick := b } := by
    rw [h1, List.getD_eq_getElem?_getD, List.getElem?_concat_length]
    rfl
  have her2 : (notesOf (r.moveNote t a b now) t).eraseIdx ((notesOf r t).eraseIdx i).length
      = (notesOf r t).eraseIdx i := by
    rw [h1, List.eraseIdx_append_of_length_le (le_refl _)]
    simp
  have hnote : ({ ({ (notesOf r t)[i] with tick := b } : Note) with tick := a } : Note)
      = (notesOf r t)[i] := by
    have hx : ({ ({ (notesOf r t)[i] with tick := b } : Note) with tick := a } : Note)
        = { tick := a, velocity := (notesOf r t)[i].velocity } := rfl
    rw [hx, ← htick]
  have hfinal : notesOf ((r.moveNote t a b now).moveNote t b a now') t
      = (notesOf r t).eraseIdx i ++ [(notesOf r t)[i]] := by
    rw [h2, hgd2, her2, hnote]
  have hdecomp : (notesOf r t).take i ++ (notesOf r t)[i] :: (notesOf r t).drop (i + 1)
      = notesOf r t := by
    rw [List.getElem_cons_drop _ _ hilen]
    exact List.take_append_drop i _
  have hperm : ((notesOf r t).eraseIdx i ++ [(notesOf r t)[i]]).Perm (notesOf r t) := by
    rw [List.eraseIdx_eq_take_drop_succ, List.append_assoc]
    have hstep : ((notesOf r t).take i
          ++ ((notesOf r t).drop (i + 1) ++ [(notesOf r t)[i]])).Perm
        ((notesOf r t).take i ++ ((notesOf r t)[i] :: (notesOf r t).drop (i + 1))) :=
      List.Perm.append_left _ (List.perm_append_singleton _ _)
    refine hstep.trans ?_
    rw [hdecomp]
  refine ⟨?_, ?_, ?_⟩
  · rw [hfinal]
    exact hperm
  · rw [hgetD]
    exact htick
  · rw [hfinal, hgetD]
    simp

/-- Witness for the amended C5 at a concrete one-note track. -/
theorem moveNote_roundtrip_restores_witness :
    ((notesOf ((((Room.new "v" 0).addNote "kick" 0 3 1).moveNote "kick" 0 5 2).moveNote
          "kick" 5 0 3) "kick").Perm (notesOf ((Room.new "v" 0).addNote "kick" 0 3 1) "kick"))
    ∧ ((notesOf ((Room.new "v" 0).addNote "kick" 0 3 1) "kick").getD 0
          { tick := 0, velocity := 0 }).tick = 0
    ∧ (notesOf ((Room.new "v" 0).addNote "kick" 0 3 1) "kick").getD 0
          { tick := 0, velocity := 0 }
        ∈ notesOf ((((Room.new "v" 0).addNote "kick" 0 3 1).moveNote "kick" 0 5 2).moveNote
            "kick" 5 0 3) "kick" := by
  exact moveNote_roundtrip_restores ((Room.new "v" 0).addNote "kick" 0 3 1) "kick" 0 5 2 3 0
    (by rfl) (by rfl)

theorem mapHas_eq_true_iff {α : Type} (m : JMap α) (k : String) :
    mapHas m k = true ↔ k ∈ mapKeys m := by
  constructor
  · intro h
    by_contra hc
    rw [← mapHas_eq_false_iff] at hc
    rw [h] at hc
    simp at hc
  · intro h
    rcases hb : mapHas m k with _ | _
    · exact absurd h ((mapHas_eq_false_iff m k).mp hb)
    · rfl

theorem tracksSubPattern_iff (r : Room) :
    tracksSubPattern r = true ↔ ∀ k, mapHas r.tracks k = true → mapHas r.pattern k = true := by
  rw [tracksSubPattern, List.all_eq_true]
  constructor
  · intro h k hk
    exact h k ((mapHas_eq_true_iff _ _).mp hk)
  · intro h k hk
    exact h k ((mapHas_eq_true_iff _ _).mpr hk)

theorem mapHas_mono_mapSet {α : Type} (m : JMap α) (t k : String) (v : α)
    (h : mapHas m k = true) : mapHas (mapSet m t v) k = true := by
  rw [mapHas_mapSet, h]
  simp

theorem tsp_pattern_mapSet (r : Room) (t : String) (l : List Note) (now : Int)
    (h : tracksSubPattern r = true) :
    tracksSubPattern { r with pattern := mapSet r.pattern t l, lastActivity := now } = true := by
  rw [tracksSubPattern_iff] at h ⊢
  intro k hk
  exact mapHas_mono_mapSet _ _ _ _ (h k hk)

theorem tsp_new (id : String) (now : Int) : tracksSubPattern (Room.new id now) = true := rfl

theorem addNote_tracks_eq (r : Room) (t : String) (tick velocity now : Int) :
    (r.addNote t tick velocity now).tracks = r.tracks := by
  simp only [Room.addNote]
  by_cases hh : mapHas r.pattern t = true
  · rw [if_pos hh]
    rcases hfi : List.findIdx? (fun n => n.tick == tick) ((mapGet? r.pattern t).getD [])
      with _ | i <;> simp only [hfi]
  · rw [if_neg hh]
    rcases hfi : List.findIdx? (fun n => n.tick == tick)
        ((mapGet? (mapSet r.pattern t []) t).getD []) with _ | i <;> simp only [hfi]

theorem mapHas_addNote_pattern_mono (r : Room) (t : String) (tick velocity now : Int)
    (k : String) (h : mapHas r.pattern k = true) :
    mapHas (r.addNote t tick velocity now).pattern k = true := by
  simp only [Room.addNote]
  by_cases hh : mapHas r.pattern t = true
  · rw [if_pos hh]
    rcases hfi : List.findIdx? (fun n => n.tick == tick) ((mapGet? r.pattern t).getD [])
      with _ | i
    · simp only [hfi]
      exact mapHas_mono_mapSet _ _ _ _ h
    · simp only [hfi]
      exact h
  · rw [if_neg hh]
    rcases hfi : List.findIdx? (fun n => n.tick == tick)
        ((mapGet? (mapSet r.pattern t []) t).getD []) with _ | i
    · simp only [hfi]
      exact mapHas_mono_mapSet _ _ _ _ (mapHas_mono_mapSet _ _ _ _ h)
    · simp only [hfi]
      exact mapHas_mono_mapSet _ _ _ _ h

theorem mapHas_addNote_pattern_self (r : Room) (t : String) (tick velocity now : Int) :
    mapHas (r.addNote t tick velocity now).pattern t = true := by
  by_cases hh : mapHas r.pattern t = true
  · exact mapHas_addNote_pattern_mono r t tick velocity now t hh
  · simp only [Room.addNote]
    rw [if_neg hh]
    rcases hfi : List.findIdx? (fun n => n.tick == tick)
        ((mapGet? (mapSet r.pattern t []) t).getD []) with _ | i
    · simp only [hfi]
      exact mapHas_mono_mapSet _ _ _ _ (by rw [mapHas_mapSet]; simp)
    · simp only [hfi]
      rw [mapHas_mapSet]
      simp

theorem tsp_addNote (r : Room) (t : String) (tick velocity now : Int)
    (h : tracksSubPattern r = true) :
    tracksSubPattern (r.addNote t tick velocity now) = true := by
  rw [tracksSubPattern_iff] at h ⊢
  intro k hk
  rw [addNote_tracks_eq] at hk
  exact mapHas_addNote_pattern_mono r t tick velocity now k (h k hk)

theorem tsp_removeNote (r : Room) (t : String) (tick now : Int)
    (h : tracksSubPattern r = true) :
    tracksSubPattern (r.removeNote t tick now) = true := by
  simp only [Room.removeNote]
  by_cases hh : mapHas r.pattern t = true
  · rw [if_pos hh]
    exact tsp_pattern_mapSet r t _ now h
  · rw [if_neg hh]
    exact h

theorem tsp_updateNoteVelocity (r : Room) (t : String) (tick velocity now : Int)
    (h : tracksSubPattern r = true) :
    tracksSubPattern (r.updateNoteVelocity t tick velocity now) = true := by
  simp only [Room.updateNoteVelocity]
  by_cases hh : mapHas r.pattern t = true
  · rw [if_pos hh]
    rcases hfi : List.findIdx? (fun n => n.tick == tick) (notesOf r t) with _ | i
    · simp only [hfi]
      exact h
    · simp only [hfi]
      exact tsp_pattern_mapSet r t _ now h
  · rw [if_neg hh]
    exact h

theorem tsp_moveNote (r : Room) (t : String) (a b now : Int)
    (h : tracksSubPattern r = true) :
    tracksSubPattern (r.moveNote t a b now) = true := by
  simp only [Room.moveNote]
  by_cases hh : mapHas r.pattern t = true
  · rw [if_pos hh]
    rcases hfi : List.findIdx? (fun n => n.tick == a) (notesOf r t) with _ | i
    · simp only [hfi]
      exact h
    · simp only [hfi]
      exact tsp_pattern_mapSet r t _ now h
  · rw [if_neg hh]
    exact h

theorem tsp_clearTrack (r : Room) (t : String) (now : Int)
    (h : tracksSubPattern r = true) :
    tracksSubPattern (r.clearTrack t now) = true := by
  simp only [Room.clearTrack]
  by_cases hh : mapHas r.pattern t = true
  · rw [if_pos hh]
    exact tsp_pattern_mapSet r t _ now h
  · rw [if_neg hh]
    exact h

theorem tsp_addTrack (r : Room) (td : Track) (now : Int)
    (h : tracksSubPattern r = true) :
    tracksSubPattern (r.addTrack td now) = true := by
  rw [tracksSubPattern_iff] at h ⊢
  intro k hk
  have hk2 : mapHas (mapSet r.tracks td.id td) k = true := hk
  show mapHas (mapSet r.pattern td.id []) k = true
  rw [mapHas_mapSet] at hk2
  rw [mapHas_mapSet]
  rw [Bool.or_eq_true] at hk2 ⊢
  rcases hk2 with h1 | h2
  · exact Or.inl h1
  · exact Or.inr (h k h2)

theorem tsp_removeTrack (r : Room) (t : String) (now : Int)
    (h : tracksSubPattern r = true) :
    tracksSubPattern (r.removeTrack t now) = true := by
  rw [tracksSubPattern_iff] at h ⊢
  intro k hk
  have hk2 : mapHas (mapDelete r.tracks t) k = true := hk
  show mapHas (mapDelete r.pattern t) k = true
  rw [mapHas_mapDelete, Bool.and_eq_true] at hk2
  rw [mapHas_mapDelete, Bool.and_eq_true]
  exact ⟨hk2.1, h k hk2.2⟩

theorem tsp_updateTrackSound (r : Room) (t sf : String) (now : Int)
    (h : tracksSubPattern r = true) :
    tracksSubPattern (r.updateTrackSound t sf now) = true := by
  simp only [Room.updateTrackSound]
  by_cases hh : mapHas r.tracks t = true
  · rw [if_pos hh]
    rcases hg : mapGet? r.tracks t with _ | track
    · simp only [hg]
      exact h
    · simp only [hg]
      rw [tracksSubPattern_iff] at h ⊢
      intro k hk
      have hk2 : mapHas (mapSet r.tracks t { track with soundFile := sf }) k = true := hk
      show mapHas r.pattern k = true
      rw [mapHas_mapSet, Bool.or_eq_true] at hk2
      rcases hk2 with h1 | h2
      · have hkt : t = k := by simpa using h1
        subst hkt
        exact h t hh
      · exact h k h2
  · rw [if_neg hh]
    exact h

/-- C8: every key of `tracks` has a (possibly empty) entry in `pattern`; the
inclusion holds for a freshly constructed room and is preserved by every
mutating operation of `DrumRoom`. -/
theorem tracks_pattern_lockstep_invariant :
    (∀ (id : String) (now : Int), tracksSubPattern (Room.new id now) = true)
    ∧ ∀ r : Room, tracksSubPattern r = true →
        (∀ (u : String) (now : Int), tracksSubPattern (r.addUser u now) = true)
        ∧ (∀ (u : String) (now : Int), tracksSubPattern (r.removeUser u now) = true)
        ∧ (∀ (t : String) (tick velocity now : Int),
            tracksSubPattern (r.addNote t tick velocity now) = true)
        ∧ (∀ (t : String) (tick now : Int), tracksSubPattern (r.removeNote t tick now) = true)
        ∧ (∀ (t : String) (tick velocity now : Int),
            tracksSubPattern (r.updateNoteVelocity t tick velocity now) = true)
        ∧ (∀ (t : String) (a b now : Int), tracksSubPattern (r.moveNote t a b now) = true)
        ∧ (∀ (t : String) (now : Int), tracksSubPattern (r.clearTrack t now) = true)
        ∧ (∀ (v now : Int), tracksSubPattern (r.setBpm v now) = true)
        ∧ (∀ (v now : Int), tracksSubPattern (r.setMeasureCount v now) = true)
        ∧ (∀ (td : Track) (now : Int), tracksSubPattern (r.addTrack td now) = true)
        ∧ (∀ (t : String) (now : Int), tracksSubPattern (r.removeTrack t now) = true)
        ∧ (∀ (t sf : String) (now : Int),
            tracksSubPattern (r.updateTrackSound t sf now) = true) := by
  refine ⟨fun id now => tsp_new id now, fun r h => ⟨fun u now => h, fun u now => h,
    fun t tick velocity now => tsp_addNote r t tick velocity now h,
    fun t tick now => tsp_removeNote r t tick now h,
    fun t tick velocity now => tsp_updateNoteVelocity r t tick velocity now h,
    fun t a b now => tsp_moveNote r t a b now h,
    fun t now => tsp_clearTrack r t now h,
    fun v now => h,
    fun v now => h,
    fun td now => tsp_addTrack r td now h,
    fun t now => tsp_removeTrack r t now h,
    fun t sf now => tsp_updateTrackSound r t sf now h⟩⟩

/-- Witness for C8: the invariant holds of a fresh room and survives an
`addNote` addressing a track that does not exist yet. -/
theorem tracks_pattern_lockstep_invariant_witness :
    tracksSubPattern (Room.new "w8" 0) = true
    ∧ tracksSubPattern ((Room.new "w8" 0).addNote "extra" 0 4 1) = true := by
  refine ⟨tracks_pattern_lockstep_invariant.1 "w8" 0, ?_⟩
  exact ((tracks_pattern_lockstep_invariant.2 (Room.new "w8" 0) (by rfl)).2.2.1) "extra" 0 4 1

/-- C10: `addNote` on a track id absent from `tracks` creates the pattern
entry but never touches `tracks`, so the pattern's key set strictly contains
the tracks' key set afterwards, and the `getState` snapshot shows a pattern
entry with no corresponding track object. -/
theorem addNote_unknown_track_widens_pattern (r : Room) (trackId : String)
    (tick velocity now : Int)
    (hun : mapHas r.tracks trackId = false)
    (hsub : tracksSubPattern r = true)
    (hids : trackIdsMatchKeys r = true) :
    (r.addNote trackId tick velocity now).tracks = r.tracks
    ∧ mapHas (r.addNote trackId tick velocity now).pattern trackId = true
    ∧ tracksSubPattern (r.addNote trackId tick velocity now) = true
    ∧ mapHas (r.addNote trackId tick velocity now).tracks trackId = false
    ∧ mapHas ((r.addNote trackId tick velocity now).getState).pattern trackId = true
    ∧ ((r.addNote trackId tick velocity now).getState).tracks.all
        (fun tr => !(tr.id == trackId)) = true := by
  have htr := addNote_tracks_eq r trackId tick velocity now
  have hself := mapHas_addNote_pattern_self r trackId tick velocity now
  refine ⟨htr, hself, tsp_addNote r trackId tick velocity now hsub,
    by rw [htr]; exact hun, hself, ?_⟩
  have hvals : ((r.addNote trackId tick velocity now).getState).tracks
      = mapValues r.tracks := by
    show mapValues (r.addNote trackId tick velocity now).tracks = mapValues r.tracks
    rw [htr]
  rw [hvals, List.all_eq_true]
  intro tr htrm
  rw [mapValues, List.mem_map] at htrm
  obtain ⟨p, hp, hpv⟩ := htrm
  rw [trackIdsMatchKeys, List.all_eq_true] at hids
  have hid := hids p hp
  have hk : ¬ p.1 = trackId := by
    intro hc
    have hmem : trackId ∈ mapKeys r.tracks := by
      rw [← hc]
      exact List.mem_map_of_mem _ hp
    exact absurd hmem ((mapHas_eq_false_iff _ _).mp hun)
  have hti : tr.id = p.1 := by
    rw [← hpv]
    simpa using hid
  simp [hti, hk]

/-- Witness for C10 on a fresh room and the unknown track id perc. -/
theorem addNote_unknown_track_widens_pattern_witness :
    mapHas (Room.new "wx" 0).tracks "perc" = false
    ∧ ((Room.new "wx" 0).addNote "perc" 0 4 1).tracks = (Room.new "wx" 0).tracks
    ∧ mapHas ((Room.new "wx" 0).addNote "perc" 0 4 1).pattern "perc" = true
    ∧ tracksSubPattern ((Room.new "wx" 0).addNote "perc" 0 4 1) = true
    ∧ mapHas ((Room.new "wx" 0).addNote "perc" 0 4 1).tracks "perc" = false
    ∧ mapHas (((Room.new "wx" 0).addNote "perc" 0 4 1).getState).pattern "perc" = true
    ∧ (((Room.new "wx" 0).addNote "perc" 0 4 1).getState).tracks.all
        (fun tr => !(tr.id == "perc")) = true := by
  have h := addNote_unknown_track_widens_pattern (Room.new "wx" 0) "perc" 0 4 1
    (by rfl) (by rfl) (by rfl)
  exact ⟨by rfl, h.1, h.2.1, h.2.2.1, h.2.2.2.1, h.2.2.2.2.1, h.2.2.2.2.2⟩
